import Mathlib

/-!
# Exchange-rate monitor: verification of the live aggregation core

Shallow embedding of the core logic of the two source files of the
repository (`src/app.py`, the Streamlit variant, and `src/main.py`, the
matplotlib variant): bank-rate fetchers, throttled polling, the bounded
live buffer, trend computation, selection reset and the nearest-sample
cursor query.  Timestamps and rates are rationals; Python `float` values
that may be NaN are a dedicated type; fallible operations return `Option`.
-/

/-- A bank quote as both fetchers build it: the two sell-rate cells as
text (`spot_sell`, `cash_sell` keys of the returned dict). -/
structure Quote where
  spot_sell : String
  cash_sell : String
deriving DecidableEq

/-- A Python float that may be NaN (`yfinance` can hand back NaN). -/
inductive PyFloat where
  | nan : PyFloat
  | num : ℚ → PyFloat
deriving DecidableEq

/-- Python truthiness of an optional float: `None` and `0.0` are falsy,
every other float — including NaN — is truthy. -/
def pyTruthyF : Option PyFloat → Bool
  | none => false
  | some PyFloat.nan => true
  | some (PyFloat.num q) => decide (q ≠ 0)

/-- The static currency → Chinese display-name table `currency_map` of
`BankRateFetcher.__init__` (identical in both files); `Option` is
`dict.get`'s miss behaviour for an unknown code. -/
def currencyMap : String → Option String
  | "EUR" => some "欧元"
  | "USD" => some "美元"
  | "HKD" => some "港币"
  | "GBP" => some "英镑"
  | "JPY" => some "日元"
  | _ => none

/-- Character-list version of Python's startswith used by `containsRun`. -/
def leadsWith : List Char → List Char → Bool
  | [], _ => true
  | _ :: _, [] => false
  | a :: as, b :: bs => a = b && leadsWith as bs

/-- Substring occurrence on character lists (Python's `needle in hay`). -/
def containsRun : List Char → List Char → Bool
  | [], needle => needle.isEmpty
  | c :: rest, needle => leadsWith needle (c :: rest) || containsRun rest needle

/-- Python's `needle in hay` on strings. -/
def strContains (hay needle : String) : Bool :=
  containsRun hay.toList needle.toList

/-- The row test of `get_boc_rates`: `len(cols) > 0 and target_name in
cols[0].text.strip()`. -/
def bocRowMatch (target : String) (row : List String) : Bool :=
  match row with
  | [] => false
  | c0 :: _ => strContains c0.trim target

/-- Embedding of `BankRateFetcher.get_boc_rates` (src/main.py lines 37-64, identical in
src/app.py lines 33-49).  The input document is `none` when the request
or the HTML parse raised (network fault, timeout — the bare `except`
returns `None`), otherwise the parsed tables as rows of cell strings.
A matching row with fewer than five cells raises IndexError at
`cols[3]`/`cols[4]` which the `except` swallows into `None`. -/
def get_boc_rates (doc : Option (List (List (List String)))) (currency_code : String) :
    Option Quote :=
  match doc with
  | none => none
  | some tables =>
    match currencyMap currency_code with
    | none => none
    | some target =>
      match tables.flatten.find? (fun row => bocRowMatch target row) with
      | none => none
      | some row =>
        if row.length > 4 then
          some ⟨(row.getD 3 "").trim, (row.getD 4 "").trim⟩
        else none

/-- One list entry of the CMB JSON body: the three fields the code reads,
each `Option` because `item.get` tolerates a missing key. -/
structure CmbItem where
  ccyNbr : Option String
  rthOfr : Option String
  rtcOfr : Option String
deriving DecidableEq

/-- The parsed side of a CMB HTTP response: `.json()` raised, parsed JSON
without a `body` key, or the `body` list. -/
inductive CmbBody where
  | parseFailed : CmbBody
  | noBodyKey : CmbBody
  | items : List CmbItem → CmbBody
deriving DecidableEq

/-- A CMB fetch outcome before the code looks at it: `requests.get`
raised (network fault, timeout), or a response with a status code and
body. -/
inductive CmbResponse where
  | transportFault : CmbResponse
  | response : ℕ → CmbBody → CmbResponse
deriving DecidableEq

/-- Embedding of `BankRateFetcher.get_cmb_rates` (src/main.py lines 66-98, identical in
src/app.py lines 51-68): non-200 statuses, parse failures, unknown
currencies, a missing `body` key and an absent matching entry all yield
`None`; a matching entry is read with `item.get(..., 'N/A')` defaults. -/
def get_cmb_rates (resp : CmbResponse) (currency_code : String) : Option Quote :=
  match resp with
  | CmbResponse.transportFault => none
  | CmbResponse.response status body =>
    if status ≠ 200 then none
    else
      match body, currencyMap currency_code with
      | CmbBody.parseFailed, _ => none
      | _, none => none
      | CmbBody.noBodyKey, some _ => none
      | CmbBody.items l, some target =>
        match l.find? (fun it => strContains (it.ccyNbr.getD "") target) with
        | none => none
        | some it => some ⟨it.rthOfr.getD "N/A", it.rtcOfr.getD "N/A"⟩

/-! ## Throttled bank polling (src/app.py lines 205-218) -/

/-- Per-source poller state: `st.session_state.last_bank_update[src]`
(initialised to 0, the far past) and `st.session_state.bank_rates[src]`. -/
structure PollState where
  lastFetch : ℚ
  quote : Option Quote
deriving DecidableEq

/-- One throttled fetch block of the app.py tick loop: fire when
`current_time - last_bank_update > interval`; `if rate:` keeps the old
quote on a `None` result; `last_bank_update` is set to `current_time`
whether or not the fetch succeeded.  The returned Bool records whether
the fetch was invoked at all. -/
def bankTickApp (st : PollState) (now interval : ℚ) (result : Option Quote) :
    PollState × Bool :=
  if now - st.lastFetch > interval then
    (⟨now, match result with
           | some r => some r
           | none => st.quote⟩, true)
  else (st, false)

/-- The BOC block of app.py (interval 30). -/
def appBocTick (st : PollState) (now : ℚ) (result : Option Quote) : PollState × Bool :=
  bankTickApp st now 30 result

/-- The CMB block of app.py (interval 10). -/
def appCmbTick (st : PollState) (now : ℚ) (result : Option Quote) : PollState × Bool :=
  bankTickApp st now 10 result

/-- One iteration body of `run_boc_loop` / `run_cmb_loop` in src/main.py
(lines 330-375): `rate = fetch(current)`; then, unless the selected
currency changed concurrently, `self.bank_rates[src] = rate` — the result
is stored even when it is `None`. -/
def mainBankLoopBody (cached : Option Quote) (fetchResult : Option Quote)
    (currencyUnchanged : Bool) : Option Quote :=
  if currencyUnchanged then fetchResult else cached

/-! ## The live buffer (src/app.py lines 197-203, src/main.py lines 567-574) -/

/-- The opportunistic trim both files run after appending: `if len(times)
> 3600: pop(0)`. -/
def trimLive {α : Type} (l : List α) : List α :=
  if l.length > 3600 then l.tail else l

/-- Append one sample and trim: the `appendLive` operation of the spec as
both source files implement it. -/
def appendLive {α : Type} (buf : List α) (s : α) : List α :=
  trimLive (buf ++ [s])

/-- The primary live price `price = ticker.fast_info.last_price`, with the fallback of both
files: when the primary value is `None` or NaN, take the last close of a
short-range history fetch (here `fallbackCloses`); when that history is
empty the primary value survives unchanged. -/
def getLivePriceApp (fast : Option PyFloat) (fallbackCloses : List PyFloat) :
    Option PyFloat :=
  match fast with
  | none =>
    match fallbackCloses.getLast? with
    | some c => some c
    | none => none
  | some PyFloat.nan =>
    match fallbackCloses.getLast? with
    | some c => some c
    | none => some PyFloat.nan
  | some (PyFloat.num q) => some (PyFloat.num q)

/-- The append guard of the app.py tick loop (lines 197-203): `if price:`
— append `(now, price)` and trim only when `price` is truthy. -/
def appLiveAppendStep (buf : List (ℚ × PyFloat)) (now : ℚ) (price : Option PyFloat) :
    List (ℚ × PyFloat) :=
  match price with
  | some v => if pyTruthyF (some v) then trimLive (buf ++ [(now, v)]) else buf
  | none => buf

/-- Embedding of `ExchangeRateMonitor.get_live_rate` (src/main.py lines 431-450): the
fallback chain of `getLivePriceApp` followed by the final filter `if
price is not None and not np.isnan(price)`. -/
def get_live_rate (fast : Option PyFloat) (fallbackCloses : List PyFloat) : Option ℚ :=
  match getLivePriceApp fast fallbackCloses with
  | some (PyFloat.num q) => some q
  | _ => none

/-! ## Trend metrics (src/app.py lines 226-229 and 252) -/

/-- Python's `price if price else alt` on an optional rate (zero and
`None` are falsy). -/
def pyOrElseQ (price : Option ℚ) (alt : ℚ) : ℚ :=
  match price with
  | some p => if p = 0 then alt else p
  | none => alt

/-- The displayed value `current_val = price if price else (hist_data['Close'].iloc[-1] if
not hist_data.empty else 0)`. -/
def appCurrentVal (price : Option ℚ) (histCloses : List ℚ) : ℚ :=
  pyOrElseQ price ((histCloses.getLast?).getD 0)

/-- The baseline `start_val = hist_data['Close'].iloc[0] if not hist_data.empty else
current_val`. -/
def appStartVal (price : Option ℚ) (histCloses : List ℚ) : ℚ :=
  match histCloses.head? with
  | some c => c
  | none => appCurrentVal price histCloses

/-- The change `delta = current_val - start_val`. -/
def appDelta (price : Option ℚ) (histCloses : List ℚ) : ℚ :=
  appCurrentVal price histCloses - appStartVal price histCloses

/-- The percentage `delta_percent = (delta / start_val) * 100 if start_val != 0 else 0`. -/
def appDeltaPercent (price : Option ℚ) (histCloses : List ℚ) : ℚ :=
  if appStartVal price histCloses = 0 then 0
  else appDelta price histCloses / appStartVal price histCloses * 100

/-- The direction pick `line_col = c_up if delta >= 0 else c_down` (app.py line 252); the
same comparison picks `▲` in `update_visuals` of main.py. -/
def appDirectionUp (price : Option ℚ) (histCloses : List ℚ) : Bool :=
  decide (appDelta price histCloses ≥ 0)

/-- Result of a numpy float operation as main.py's update loop performs
it: a finite value, an infinity (x/0 with x ≠ 0) or nan (0/0) — numpy
emits a RuntimeWarning, which `warnings.filterwarnings('ignore')`
suppresses, instead of raising. -/
inductive NpValue where
  | finite : ℚ → NpValue
  | infinite : NpValue
  | nanValue : NpValue
deriving DecidableEq

/-- Division `change / start_rate` under numpy semantics: no exception
and no guard — a zero divisor yields an infinity (or nan for 0/0). -/
def npDiv (a b : ℚ) : NpValue :=
  if b = 0 then (if a = 0 then NpValue.nanValue else NpValue.infinite)
  else NpValue.finite (a / b)

/-- Multiplication by the finite literal 100 (`* 100`): infinities and
nan propagate unchanged. -/
def npMul100 : NpValue → NpValue
  | NpValue.finite q => NpValue.finite (q * 100)
  | v => v

/-- The change computation of `ExchangeRateMonitor.update` (src/main.py
lines 589-595): 0 when history is empty, else current rate minus the
first close of the history. -/
def mainChange (currentRate : ℚ) (histCloses : List ℚ) : ℚ :=
  match histCloses.head? with
  | none => 0
  | some s => currentRate - s

/-- The percentage of the same block: `pct_change = (change /
start_rate) * 100` (src/main.py line 595) — unlike app.py line 229
there is NO zero-baseline guard, so a zero first close produces an
infinite (or nan) percentage rather than 0. -/
def mainPctChange (currentRate : ℚ) (histCloses : List ℚ) : NpValue :=
  match histCloses.head? with
  | none => NpValue.finite 0
  | some s => npMul100 (npDiv (currentRate - s) s)

/-- The stitched sequence of close values: history then live, in order,
as both files concatenate them before drawing. -/
def stitchedVals (histCloses liveRates : List ℚ) : List ℚ :=
  histCloses ++ liveRates

/-- Modelled from the spec's words, for comparison with the code:
"Baseline = first sample's value in `view` if non-empty, else the single
current value." -/
def specViewBaseline (view : List ℚ) (current : ℚ) : ℚ :=
  (view.head?).getD current

/-! ## Selection reset (src/app.py lines 144-159, src/main.py lines 295-310) -/

/-- The session state app.py keeps across reruns: the live buffer, both
bank quotes, both throttle cursors and the last selected currency. -/
structure AppSessionState where
  liveData : List (ℚ × ℚ)
  bocRate : Option Quote
  cmbRate : Option Quote
  bocLastUpdate : ℚ
  cmbLastUpdate : ℚ
  lastCurrency : String
deriving DecidableEq

/-- The reset block at the top of every app.py rerun (lines 154-159): it
compares only `last_currency` with the selected currency — the selected
range is not consulted and no `last_range` exists in the session state. -/
def appSelectionStep (s : AppSessionState) (selectedCurrency selectedRange : String) :
    AppSessionState :=
  if s.lastCurrency ≠ selectedCurrency then
    ⟨[], none, none, 0, 0, selectedCurrency⟩
  else s

/-- The monitor state touched by `change_range` in src/main.py. -/
structure MainMonitorState where
  currentRange : String
  historyData : List (ℚ × ℚ)
  liveTimes : List ℚ
  liveRates : List ℚ
  bocRate : Option Quote
  cmbRate : Option Quote
deriving DecidableEq

/-- Embedding of `ExchangeRateMonitor.change_range` (src/main.py lines 304-310)
followed by the history replacement its `refresh_data` performs: the
live buffer is emptied and history reloaded, `self.bank_rates` is not
touched. -/
def change_range (s : MainMonitorState) (label : String)
    (fetchedHistory : List (ℚ × ℚ)) : MainMonitorState :=
  { currentRange := label
    historyData := fetchedHistory
    liveTimes := []
    liveRates := []
    bocRate := s.bocRate
    cmbRate := s.cmbRate }

/-! ## Nearest-sample cursor query (src/main.py lines 458-528) -/

/-- One point of the stitched series: a timestamp and a rate. -/
structure Sample where
  ts : ℚ
  val : ℚ
deriving DecidableEq

/-- The spec's error taxonomy for the cursor query: `NoData` is the only
error a query can surface. -/
inductive QueryError where
  | noData : QueryError
deriving DecidableEq

/-- The binary search loop of `bisect.bisect_left`: `lo = 0; hi = len(a);
while lo < hi: mid = (lo+hi)//2; if a[mid] < x: lo = mid+1 else hi =
mid`.  The loop halves `hi - lo` each pass, so any fuel of at least
`hi - lo` (the caller passes `a.length`) runs it to completion;
structural recursion on the fuel keeps the search kernel-evaluable. -/
def bisectLeftGo (a : List ℚ) (x : ℚ) : ℕ → ℕ → ℕ → ℕ
  | 0, lo, _ => lo
  | fuel + 1, lo, hi =>
    if lo < hi then
      if a.getD ((lo + hi) / 2) 0 < x then bisectLeftGo a x fuel ((lo + hi) / 2 + 1) hi
      else bisectLeftGo a x fuel lo ((lo + hi) / 2)
    else lo

/-- The call `bisect.bisect_left(a, x)` as `on_mouse_move` makes it. -/
def bisectLeft (a : List ℚ) (x : ℚ) : ℕ :=
  bisectLeftGo a x a.length 0 a.length

/-- Python's `abs` on a rational, written so the kernel can evaluate it. -/
def ratAbs (q : ℚ) : ℚ :=
  if q < 0 then -q else q

/-- The index selection of `on_mouse_move` (src/main.py lines 486-507):
`idx = bisect_left(x_data, target)`, clamp `idx >= len` to the last
index, otherwise compare the two neighbouring distances (`d1`, `d2`) and
move to the earlier sample only when it is strictly closer. -/
def nearestIdx (a : List ℚ) (x : ℚ) : ℕ :=
  if bisectLeft a x ≥ a.length then a.length - 1
  else if bisectLeft a x > 0 then
    if ratAbs (a.getD (bisectLeft a x - 1) 0 - x) < ratAbs (a.getD (bisectLeft a x) 0 - x) then
      bisectLeft a x - 1
    else bisectLeft a x
  else bisectLeft a x

/-- The cursor query over the stitched view: `on_mouse_move` bails out
(`if len(x_data) == 0: return`, the spec's `NoData`) on an empty view and
otherwise reads the sample at `nearestIdx`. -/
def nearestQuery (view : List Sample) (t : ℚ) : Except QueryError Sample :=
  if view.isEmpty then Except.error QueryError.noData
  else Except.ok (view.getD (nearestIdx (view.map Sample.ts) t) ⟨0, 0⟩)

/-- Non-decreasing timestamps, phrased over `getD` with bounded
quantifiers so concrete instances are decidable. -/
def sortedLE (a : List ℚ) : Prop :=
  ∀ j, j < a.length → ∀ i, i ≤ j → a.getD i 0 ≤ a.getD j 0

instance (a : List ℚ) : Decidable (sortedLE a) := by
  unfold sortedLE
  infer_instance

/-! ## Buffer lemmas -/

theorem appendLive_length_le {α : Type} (b : List α) (x : α) (h : b.length ≤ 3600) :
    (appendLive b x).length ≤ 3600 := by
  unfold appendLive trimLive
  split
  · simpa using h
  · next hnot =>
    simp only [List.length_append, List.length_cons, List.length_nil] at hnot ⊢
    omega

theorem appendLive_eq_drop {α : Type} (b : List α) (x : α) (h : b.length ≤ 3600) :
    appendLive b x = (b ++ [x]).drop ((b ++ [x]).length - 3600) := by
  unfold appendLive trimLive
  split
  · next hgt =>
    have h1 : (b ++ [x]).length - 3600 = 1 := by
      simp only [List.length_append, List.length_cons, List.length_nil] at hgt ⊢
      omega
    rw [h1]
    exact (List.drop_one _).symm
  · next hle =>
    have h0 : (b ++ [x]).length - 3600 = 0 := by
      simp only [List.length_append, List.length_cons, List.length_nil, not_lt,
        gt_iff_lt] at hle ⊢
      omega
    rw [h0, List.drop_zero]

theorem foldl_appendLive_eq {α : Type} :
    ∀ (xs b : List α), b.length ≤ 3600 →
      List.foldl appendLive b xs = (b ++ xs).drop ((b ++ xs).length - 3600) := by
  intro xs
  induction xs with
  | nil =>
    intro b h
    simp only [List.foldl_nil, List.append_nil]
    have h0 : b.length - 3600 = 0 := by omega
    rw [h0, List.drop_zero]
  | cons x xs ih =>
    intro b h
    have hb' : (appendLive b x).length ≤ 3600 := appendLive_length_le b x h
    have hstep : appendLive b x = (b ++ [x]).drop ((b ++ [x]).length - 3600) :=
      appendLive_eq_drop b x h
    have hk : (b ++ [x]).length - 3600 ≤ (b ++ [x]).length := by omega
    have hsplit : (b ++ [x]).drop ((b ++ [x]).length - 3600) ++ xs
        = ((b ++ [x]) ++ xs).drop ((b ++ [x]).length - 3600) :=
      (List.drop_append_of_le_length hk).symm
    rw [List.foldl_cons, ih (appendLive b x) hb', hstep, hsplit, List.drop_drop]
    have hassoc : (b ++ [x]) ++ xs = b ++ x :: xs := by
      rw [List.append_assoc]
      rfl
    rw [hassoc]
    refine congrArg (fun n => List.drop n (b ++ x :: xs)) ?_
    simp only [List.length_drop, List.length_append, List.length_cons, List.length_nil]
    omega

/-- C5: for every sequence of `appendLive` calls starting from the empty
buffer, the live buffer never holds more than 3600 samples, and what it
holds is exactly the most recently appended samples in their original
order (the all-but-last-3600 prefix is dropped, one oldest sample per
overflow). -/
theorem C5_live_buffer_bounded (xs : List Sample) :
    (List.foldl appendLive [] xs).length ≤ 3600 ∧
    List.foldl appendLive ([] : List Sample) xs = xs.drop (xs.length - 3600) := by
  have h := foldl_appendLive_eq xs [] (by simp)
  simp only [List.nil_append] at h
  refine ⟨?_, h⟩
  rw [h]
  simp only [List.length_drop]
  omega

/-! ## Throttled polling -/

/-- C7: in the app.py tick loop a throttled source fetches exactly when
`now - lastFetchTime` exceeds its fixed interval (30 for BOC, 10 for
CMB); whenever a fetch fires, `lastFetchTime` becomes `now` whether the
fetch succeeded or failed; with interval 10 and cursor `t`, nothing
fires at `t + 9` and a fetch fires at `t + 11`, moving the cursor to
`t + 11` for any fetch outcome. -/
theorem C7_throttle_schedule (st : PollState) (now : ℚ) (result : Option Quote) :
    ((appBocTick st now result).2 = true ↔ now - st.lastFetch > 30) ∧
    ((appCmbTick st now result).2 = true ↔ now - st.lastFetch > 10) ∧
    ((appBocTick st now result).1.lastFetch =
      if now - st.lastFetch > 30 then now else st.lastFetch) ∧
    ((appCmbTick st now result).1.lastFetch =
      if now - st.lastFetch > 10 then now else st.lastFetch) ∧
    (∀ t q, appCmbTick ⟨t, q⟩ (t + 9) result = (⟨t, q⟩, false)) ∧
    (∀ t q, (appCmbTick ⟨t, q⟩ (t + 11) result).1.lastFetch = t + 11 ∧
            (appCmbTick ⟨t, q⟩ (t + 11) result).2 = true) := by
  unfold appBocTick appCmbTick bankTickApp
  refine ⟨?_, ?_, ?_, ?_, ?_, ?_⟩
  · split <;> simp_all
  · split <;> simp_all
  · split <;> simp_all
  · split <;> simp_all
  · intro t q
    have h9 : t + 9 - t = (9 : ℚ) := by ring
    have hno : ¬ ((9 : ℚ) > 10) := by norm_num
    rw [h9, if_neg hno]
  · intro t q
    have h11 : t + 11 - t = (11 : ℚ) := by ring
    have hgt : (11 : ℚ) > 10 := by norm_num
    rw [h11, if_pos hgt]
    exact ⟨rfl, rfl⟩

/-- C3 counterexample: one iteration of `run_boc_loop` in src/main.py
with a cached quote and a failed fetch stores the `None` result, erasing
the previously cached quote rather than retaining it. -/
theorem C3_counterexample :
    mainBankLoopBody (some ⟨"7.8486", "7.8800"⟩) none true = none ∧
    (none : Option Quote) ≠ some ⟨"7.8486", "7.8800"⟩ := by
  exact ⟨rfl, by simp⟩

/-- C3 amended: in app.py's throttled blocks a failed fetch leaves the
cached quote untouched while `last_bank_update` still advances to `now`;
in main.py's background loops the fetch result is stored even when it is
`None`, so a failed fetch there erases the cached quote. -/
theorem C3_failed_fetch (st : PollState) (now : ℚ) :
    (now - st.lastFetch > 30 → appBocTick st now none = (⟨now, st.quote⟩, true)) ∧
    (now - st.lastFetch > 10 → appCmbTick st now none = (⟨now, st.quote⟩, true)) ∧
    (∀ cached fetched : Option Quote, mainBankLoopBody cached fetched true = fetched) := by
  unfold appBocTick appCmbTick bankTickApp mainBankLoopBody
  refine ⟨?_, ?_, ?_⟩
  · intro h
    simp [h]
  · intro h
    simp [h]
  · intro cached fetched
    simp

/-! ## NaN and zero handling of the live append guard -/

/-- C4 (code bug in src/app.py): when `fast_info.last_price` is NaN and
the fallback history fetch is empty, the price stays NaN; `if price:` is
True for NaN (NaN is truthy in Python), so a NaN-valued sample is
appended to the live buffer — while main.py's `get_live_rate` filter
correctly turns the same condition into `None`. -/
theorem C4_nan_sample_appended :
    getLivePriceApp (some PyFloat.nan) [] = some PyFloat.nan ∧
    appLiveAppendStep [] 0 (getLivePriceApp (some PyFloat.nan) []) = [(0, PyFloat.nan)] ∧
    get_live_rate (some PyFloat.nan) [] = none := by
  refine ⟨rfl, ?_, rfl⟩
  rfl

/-- C10 counterexample: the app.py guard `if price:` is not stricter
than the spec's NaN rejection — a NaN price passes it and is appended. -/
theorem C10_counterexample :
    appLiveAppendStep [(0, PyFloat.num 8)] 1 (some PyFloat.nan) =
      [(0, PyFloat.num 8), (1, PyFloat.nan)] ∧
    [((0 : ℚ), PyFloat.num 8), (1, PyFloat.nan)] ≠ [((0 : ℚ), PyFloat.num 8)] := by
  exact ⟨rfl, by simp⟩

/-- C10 amended: in the app.py tick loop a fetched price of exactly 0.0
is treated as absent — not appended, with the displayed current value
falling back to the last historical close (or 0) — and a missing price
behaves the same; the guard `if price:` rejects zero and `None` but
accepts NaN, so it is stricter than the spec's NaN/undefined rejection
only on zero, not a superset of it. -/
theorem C10_zero_price_absent (buf : List (ℚ × PyFloat)) (now : ℚ) (hist : List ℚ) :
    appLiveAppendStep buf now (some (PyFloat.num 0)) = buf ∧
    appLiveAppendStep buf now none = buf ∧
    appCurrentVal (some 0) hist = (hist.getLast?).getD 0 ∧
    appCurrentVal none hist = (hist.getLast?).getD 0 := by
  refine ⟨?_, rfl, ?_, ?_⟩
  · simp [appLiveAppendStep, pyTruthyF]
  · simp [appCurrentVal, pyOrElseQ]
  · simp [appCurrentVal, pyOrElseQ]

/-! ## Trend computation -/

/-- C6 counterexample, refuting two parts of the claim: (i) with empty
history, one live sample at 7.80 in the buffer (so a non-empty stitched
view whose first value is 7.80) and a current price of 7.85, the code
computes delta 0 — its baseline is the current value because
`hist_data` is empty — while the claim's view-first baseline would give
delta 0.05; (ii) the claimed zero-baseline guard is absent from
main.py: a first close of 0 with current rate 1 yields an infinite
percentage there, not 0. -/
theorem C6_counterexample :
    stitchedVals [] [39/5] ≠ [] ∧
    specViewBaseline (stitchedVals [] [39/5]) (appCurrentVal (some (157/20)) []) = 39/5 ∧
    appDelta (some (157/20)) [] = 0 ∧
    (157/20 : ℚ) - 39/5 ≠ 0 ∧
    mainPctChange 1 [0] = NpValue.infinite ∧
    NpValue.infinite ≠ NpValue.finite 0 := by
  refine ⟨by simp [stitchedVals], by norm_num [stitchedVals, specViewBaseline], ?_,
    by norm_num, ?_, by simp⟩
  · norm_num [appDelta, appCurrentVal, appStartVal, pyOrElseQ]
  · norm_num [mainPctChange, npDiv, npMul100]

/-- C6 amended: in both files the baseline is the first close of the
HistoricalSeries when history is non-empty (not the first sample of the
stitched view), else delta is flat; delta = current − baseline;
direction is Up exactly when delta ≥ 0; percentDelta =
delta/baseline·100, zero-baseline-guarded to 0 in app.py but UNGUARDED
in main.py, where a zero first close yields an infinite (nonzero but
finite current) percentage instead of 0; the 7.80→7.85 scenario gives
delta 1/20 and percent 25/39 ≈ 0.641% in both files, and an empty view
yields (0, 0, Up). -/
theorem C6_trend_formulas :
    appDelta (some (157/20)) [39/5, 391/50] = 1/20 ∧
    appDeltaPercent (some (157/20)) [39/5, 391/50] = 25/39 ∧
    appDirectionUp (some (157/20)) [39/5, 391/50] = true ∧
    appDelta none [] = 0 ∧
    appDeltaPercent none [] = 0 ∧
    appDirectionUp none [] = true ∧
    (∀ p h, appStartVal p h = 0 → appDeltaPercent p h = 0) ∧
    (∀ p h, appStartVal p h ≠ 0 →
      appDeltaPercent p h = appDelta p h / appStartVal p h * 100) ∧
    (∀ p h, appDirectionUp p h = true ↔ appDelta p h ≥ 0) ∧
    (∀ p h c, h.head? = some c → appStartVal p h = c) ∧
    (∀ p, appStartVal p [] = appCurrentVal p []) ∧
    mainChange (157/20) [39/5, 391/50] = 1/20 ∧
    mainPctChange (157/20) [39/5, 391/50] = NpValue.finite (25/39) ∧
    (∀ cur, mainChange cur [] = 0 ∧ mainPctChange cur [] = NpValue.finite 0) ∧
    (∀ cur h c, h.head? = some c → mainChange cur h = cur - c) ∧
    (∀ cur h c, h.head? = some c → c ≠ 0 →
      mainPctChange cur h = NpValue.finite ((cur - c) / c * 100)) ∧
    (∀ cur h, h.head? = some 0 → cur ≠ 0 → mainPctChange cur h = NpValue.infinite) := by
  refine ⟨?_, ?_, ?_, ?_, ?_, ?_, ?_, ?_, ?_, ?_, ?_, ?_, ?_, ?_, ?_, ?_, ?_⟩
  · norm_num [appDelta, appCurrentVal, appStartVal, pyOrElseQ]
  · norm_num [appDeltaPercent, appDelta, appCurrentVal, appStartVal, pyOrElseQ]
  · norm_num [appDirectionUp, appDelta, appCurrentVal, appStartVal, pyOrElseQ]
  · norm_num [appDelta, appCurrentVal, appStartVal, pyOrElseQ]
  · norm_num [appDeltaPercent, appDelta, appCurrentVal, appStartVal, pyOrElseQ]
  · norm_num [appDirectionUp, appDelta, appCurrentVal, appStartVal, pyOrElseQ]
  · intro p h hz
    simp [appDeltaPercent, hz]
  · intro p h hz
    simp [appDeltaPercent, hz]
  · intro p h
    simp [appDirectionUp]
  · intro p h c hc
    simp [appStartVal, hc]
  · intro p
    simp [appStartVal]
  · norm_num [mainChange]
  · norm_num [mainPctChange, npDiv, npMul100]
  · intro cur
    exact ⟨rfl, rfl⟩
  · intro cur h c hc
    simp [mainChange, hc]
  · intro cur h c hc hcne
    simp [mainPctChange, hc, npDiv, hcne, npMul100]
  · intro cur h hh hcur
    simp [mainPctChange, hh, npDiv, npMul100, sub_zero, hcur]

/-! ## Selection reset -/

/-- C1 counterexample: an app.py rerun whose selected currency equals
the remembered one but whose selected range differs from the previous
rerun's (here "1h" after "48h") resets nothing — the live buffer and the
cached BOC quote survive untouched; and main.py's `change_range` keeps
both bank quotes. -/
theorem C1_counterexample :
    appSelectionStep ⟨[(1, 5)], some ⟨"8.02", "8.05"⟩, none, 100, 100, "EUR"⟩ "EUR" "1h" =
      ⟨[(1, 5)], some ⟨"8.02", "8.05"⟩, none, 100, 100, "EUR"⟩ ∧
    ([((1 : ℚ), (5 : ℚ))] : List (ℚ × ℚ)) ≠ [] ∧
    (some ⟨"8.02", "8.05"⟩ : Option Quote) ≠ none ∧
    (change_range ⟨"48h", [], [1], [5], some ⟨"8.02", "8.05"⟩, none⟩ "1h" []).bocRate =
      some ⟨"8.02", "8.05"⟩ := by
  refine ⟨?_, by simp, by simp, rfl⟩
  rw [appSelectionStep, if_neg]
  simp

/-- C1 amended: in app.py only a change of the selected currency
triggers the reset, and that reset is full (live buffer, both bank
quotes, both throttle cursors to the far past, remembered currency);
a rerun with an unchanged currency — in particular one caused by a
range change, which the reset block never inspects — resets nothing,
and main.py's `change_range` empties the live buffer and reloads
history but leaves both bank quotes in place. -/
theorem C1_reset_semantics (s : AppSessionState) (cur rng : String) :
    (s.lastCurrency ≠ cur → appSelectionStep s cur rng = ⟨[], none, none, 0, 0, cur⟩) ∧
    (s.lastCurrency = cur → appSelectionStep s cur rng = s) ∧
    (∀ ms lbl fh, (change_range ms lbl fh).liveTimes = [] ∧
      (change_range ms lbl fh).liveRates = [] ∧
      (change_range ms lbl fh).historyData = fh ∧
      (change_range ms lbl fh).bocRate = ms.bocRate ∧
      (change_range ms lbl fh).cmbRate = ms.cmbRate) := by
  refine ⟨?_, ?_, ?_⟩
  · intro hne
    rw [appSelectionStep, if_pos hne]
  · intro heq
    rw [appSelectionStep, if_neg (by simp [heq])]
  · intro ms lbl fh
    exact ⟨rfl, rfl, rfl, rfl, rfl⟩

/-! ## Fetch-layer error mapping -/

/-- C8 counterexample: a 200 CMB response whose matching entry ("美元"
for USD) lacks both rate fields is returned as a successful quote with
"N/A" placeholder text, not as a no-value result — a missing-field
condition that surfaces as success. -/
theorem C8_counterexample :
    get_cmb_rates
        (CmbResponse.response 200 (CmbBody.items [⟨some "美元", none, none⟩])) "USD" =
      some ⟨"N/A", "N/A"⟩ ∧
    (some ⟨"N/A", "N/A"⟩ : Option Quote) ≠ none := by
  exact ⟨rfl, by simp⟩

/-- C8 amended: neither fetcher can raise (both are total functions of
the response); network faults, timeouts, non-200 statuses, unparseable
documents, unknown currencies, a missing body key, an absent matching
row and a matching row too short for the sell cells all map to `None`,
and a BOC success is exactly the text of cells 3 and 4 of the first
matching row; but a matching CMB entry with missing rate fields yields a
success quote with "N/A" placeholders rather than `None`. -/
theorem C8_fetch_error_mapping (c : String) :
    get_boc_rates none c = none ∧
    get_cmb_rates CmbResponse.transportFault c = none ∧
    (∀ s b, s ≠ 200 → get_cmb_rates (CmbResponse.response s b) c = none) ∧
    (∀ s, get_cmb_rates (CmbResponse.response s CmbBody.parseFailed) c = none) ∧
    (∀ s, get_cmb_rates (CmbResponse.response s CmbBody.noBodyKey) c = none) ∧
    (currencyMap c = none → ∀ doc, get_boc_rates doc c = none) ∧
    (∀ tables target, currencyMap c = some target →
      tables.flatten.find? (fun row => bocRowMatch target row) = none →
      get_boc_rates (some tables) c = none) ∧
    (∀ tables target row, currencyMap c = some target →
      tables.flatten.find? (fun row => bocRowMatch target row) = some row →
      ¬ row.length > 4 → get_boc_rates (some tables) c = none) ∧
    (∀ tables q, get_boc_rates (some tables) c = some q →
      ∃ target row, currencyMap c = some target ∧
        tables.flatten.find? (fun row => bocRowMatch target row) = some row ∧
        row.length > 4 ∧ q = ⟨(row.getD 3 "").trim, (row.getD 4 "").trim⟩) ∧
    (∀ l it target, currencyMap c = some target →
      l.find? (fun it => strContains (it.ccyNbr.getD "") target) = some it →
      it.rthOfr = none → it.rtcOfr = none →
      get_cmb_rates (CmbResponse.response 200 (CmbBody.items l)) c = some ⟨"N/A", "N/A"⟩) := by
  refine ⟨rfl, rfl, ?_, ?_, ?_, ?_, ?_, ?_, ?_, ?_⟩
  · intro s b hs
    simp [get_cmb_rates, hs]
  · intro s
    by_cases hs : s = 200 <;> simp [get_cmb_rates, hs]
  · intro s
    by_cases hs : s = 200 <;> cases hmap : currencyMap c <;> simp [get_cmb_rates, hs, hmap]
  · intro hmap doc
    cases doc with
    | none => rfl
    | some tables => simp [get_boc_rates, hmap]
  · intro tables target hmap hfind
    simp [get_boc_rates, hmap, hfind]
  · intro tables target row hmap hfind hshort
    simp [get_boc_rates, hmap, hfind, hshort]
  · intro tables q hq
    rw [get_boc_rates] at hq
    split at hq
    next => exact absurd hq (by simp)
    next target hmap =>
      split at hq
      next => exact absurd hq (by simp)
      next row hfind =>
        split at hq
        next hlen =>
          refine ⟨target, row, hmap, hfind, hlen, ?_⟩
          injection hq with h
          exact h.symm
        next => exact absurd hq (by simp)
  · intro l it target hmap hfind hrth hrtc
    simp [get_cmb_rates, hmap, hfind, hrth, hrtc]

/-! ## Binary search bracket lemmas -/

theorem bisectLeftGo_bracket (a : List ℚ) (x : ℚ) (hsort : sortedLE a) :
    ∀ (fuel lo hi : ℕ), hi - lo ≤ fuel → lo ≤ hi → hi ≤ a.length →
      (∀ i, i < lo → a.getD i 0 < x) →
      (∀ i, hi ≤ i → i < a.length → x ≤ a.getD i 0) →
      lo ≤ bisectLeftGo a x fuel lo hi ∧
      bisectLeftGo a x fuel lo hi ≤ hi ∧
      (∀ i, i < bisectLeftGo a x fuel lo hi → a.getD i 0 < x) ∧
      (∀ i, bisectLeftGo a x fuel lo hi ≤ i → i < a.length → x ≤ a.getD i 0) := by
  intro fuel
  induction fuel with
  | zero =>
    intro lo hi hfuel hle hlen hlo hhi
    have hz : bisectLeftGo a x 0 lo hi = lo := rfl
    rw [hz]
    refine ⟨le_refl lo, hle, hlo, ?_⟩
    intro i hi1 hi2
    exact hhi i (by omega) hi2
  | succ fuel ih =>
    intro lo hi hfuel hle hlen hlo hhi
    rw [bisectLeftGo]
    by_cases h : lo < hi
    · rw [if_pos h]
      by_cases hm : a.getD ((lo + hi) / 2) 0 < x
      · rw [if_pos hm]
        have hlo' : ∀ i, i < (lo + hi) / 2 + 1 → a.getD i 0 < x := by
          intro i hi1
          have h1 : a.getD i 0 ≤ a.getD ((lo + hi) / 2) 0 :=
            hsort ((lo + hi) / 2) (by omega) i (by omega)
          linarith
        obtain ⟨r1, r2, r3, r4⟩ :=
          ih ((lo + hi) / 2 + 1) hi (by omega) (by omega) hlen hlo' hhi
        exact ⟨by omega, r2, r3, r4⟩
      · rw [if_neg hm]
        have hhi' : ∀ i, (lo + hi) / 2 ≤ i → i < a.length → x ≤ a.getD i 0 := by
          intro i hi1 hi2
          have h1 : a.getD ((lo + hi) / 2) 0 ≤ a.getD i 0 := hsort i hi2 _ hi1
          linarith
        obtain ⟨r1, r2, r3, r4⟩ :=
          ih lo ((lo + hi) / 2) (by omega) (by omega) (by omega) hlo hhi'
        exact ⟨r1, by omega, r3, r4⟩
    · rw [if_neg h]
      refine ⟨le_refl lo, hle, hlo, ?_⟩
      intro i hi1 hi2
      exact hhi i (by omega) hi2

theorem bisectLeft_bracket (a : List ℚ) (x : ℚ) (hsort : sortedLE a) :
    bisectLeft a x ≤ a.length ∧
    (∀ i, i < bisectLeft a x → a.getD i 0 < x) ∧
    (∀ i, bisectLeft a x ≤ i → i < a.length → x ≤ a.getD i 0) := by
  obtain ⟨r1, r2, r3, r4⟩ :=
    bisectLeftGo_bracket a x hsort a.length 0 a.length (by omega) (by omega) (le_refl _)
      (fun i hi1 => absurd hi1 (Nat.not_lt_zero i))
      (fun i hi1 hi2 => absurd hi2 (by omega))
  exact ⟨r2, r3, r4⟩

theorem ratAbs_eq_abs (q : ℚ) : ratAbs q = |q| := by
  rw [ratAbs]
  split
  · next h => exact (abs_of_neg h).symm
  · next h =>
    push_neg at h
    exact (abs_of_nonneg h).symm

theorem nearestIdx_lt_length (a : List ℚ) (x : ℚ) (hne : a ≠ []) :
    nearestIdx a x < a.length := by
  have hlen0 : 0 < a.length := List.length_pos.mpr hne
  rw [nearestIdx]
  split
  · omega
  · next h =>
    push_neg at h
    split
    · split <;> omega
    · omega

/-- Everything `on_mouse_move`'s index selection guarantees over a
non-decreasing timestamp list: the chosen index is in range, its
timestamp minimises the distance to the target, targets at or before the
first timestamp clamp to 0, targets past the last timestamp clamp to the
last index, and an exact midpoint between two adjacent timestamps picks
the later of the two. -/
theorem nearestIdx_spec (a : List ℚ) (x : ℚ) (hsort : sortedLE a) (hne : a ≠ []) :
    nearestIdx a x < a.length ∧
    (∀ j, j < a.length → |a.getD (nearestIdx a x) 0 - x| ≤ |a.getD j 0 - x|) ∧
    (x ≤ a.getD 0 0 → nearestIdx a x = 0) ∧
    (a.getD (a.length - 1) 0 < x → nearestIdx a x = a.length - 1) ∧
    (∀ i, i + 1 < a.length → a.getD i 0 < x → x < a.getD (i + 1) 0 →
      x - a.getD i 0 = a.getD (i + 1) 0 - x → nearestIdx a x = i + 1) := by
  obtain ⟨hble, hlt, hge⟩ := bisectLeft_bracket a x hsort
  have hlen0 : 0 < a.length := List.length_pos.mpr hne
  have habs_lt : ∀ k, a.getD k 0 < x → |a.getD k 0 - x| = x - a.getD k 0 := by
    intro k hk
    rw [abs_of_nonpos (by linarith)]
    ring
  have habs_ge : ∀ k, x ≤ a.getD k 0 → |a.getD k 0 - x| = a.getD k 0 - x := by
    intro k hk
    exact abs_of_nonneg (by linarith)
  by_cases hcl : bisectLeft a x ≥ a.length
  · have hr : nearestIdx a x = a.length - 1 := by rw [nearestIdx, if_pos hcl]
    rw [hr]
    refine ⟨by omega, ?_, ?_, fun _ => rfl, ?_⟩
    · intro j hj
      have hjx : a.getD j 0 < x := hlt j (by omega)
      have hlast : a.getD (a.length - 1) 0 < x := hlt _ (by omega)
      have hle' : a.getD j 0 ≤ a.getD (a.length - 1) 0 :=
        hsort (a.length - 1) (by omega) j (by omega)
      rw [habs_lt _ hjx, habs_lt _ hlast]
      linarith
    · intro hx
      exact absurd hx (not_le.mpr (hlt 0 (by omega)))
    · intro i hi1 hi2 hi3 hi4
      exact absurd (hlt (i + 1) (by omega)) (lt_asymm hi3)
  · push_neg at hcl
    by_cases hb0 : bisectLeft a x > 0
    · have hxb : x ≤ a.getD (bisectLeft a x) 0 := hge _ (le_refl _) hcl
      have hxb1 : a.getD (bisectLeft a x - 1) 0 < x := hlt _ (by omega)
      by_cases hd : ratAbs (a.getD (bisectLeft a x - 1) 0 - x) <
          ratAbs (a.getD (bisectLeft a x) 0 - x)
      · have hr : nearestIdx a x = bisectLeft a x - 1 := by
          rw [nearestIdx, if_neg (by omega), if_pos hb0, if_pos hd]
        rw [ratAbs_eq_abs, ratAbs_eq_abs, habs_lt _ hxb1, habs_ge _ hxb] at hd
        rw [hr]
        refine ⟨by omega, ?_, ?_, ?_, ?_⟩
        · intro j hj
          rcases lt_or_ge j (bisectLeft a x) with hj2 | hj2
          · have hjx : a.getD j 0 < x := hlt j hj2
            have hj1 : a.getD j 0 ≤ a.getD (bisectLeft a x - 1) 0 :=
              hsort _ (by omega) j (by omega)
            rw [habs_lt _ hxb1, habs_lt _ hjx]
            linarith
          · have hjx : x ≤ a.getD j 0 := hge j hj2 hj
            have hj1 : a.getD (bisectLeft a x) 0 ≤ a.getD j 0 := hsort j hj _ hj2
            rw [habs_lt _ hxb1, habs_ge _ hjx]
            linarith
        · intro hx
          exact absurd hx (not_le.mpr (hlt 0 hb0))
        · intro hlast
          exact absurd (hge (a.length - 1) (by omega) (by omega)) (not_le.mpr hlast)
        · intro i hi1 hi2 hi3 hi4
          have h1 : i < bisectLeft a x := by
            by_contra hc
            push_neg at hc
            exact absurd (hge i hc (by omega)) (not_le.mpr hi2)
          have h2 : ¬ (i + 1 < bisectLeft a x) := fun hc =>
            absurd (hlt (i + 1) hc) (lt_asymm hi3)
          have hbi : bisectLeft a x = i + 1 := by omega
          exfalso
          rw [hbi] at hd
          have hsub : i + 1 - 1 = i := by omega
          rw [hsub] at hd
          linarith
      · have hr : nearestIdx a x = bisectLeft a x := by
          rw [nearestIdx, if_neg (by omega), if_pos hb0, if_neg hd]
        push_neg at hd
        rw [ratAbs_eq_abs, ratAbs_eq_abs, habs_lt _ hxb1, habs_ge _ hxb] at hd
        rw [hr]
        refine ⟨by omega, ?_, ?_, ?_, ?_⟩
        · intro j hj
          rcases lt_or_ge j (bisectLeft a x) with hj2 | hj2
          · have hjx : a.getD j 0 < x := hlt j hj2
            have hj1 : a.getD j 0 ≤ a.getD (bisectLeft a x - 1) 0 :=
              hsort _ (by omega) j (by omega)
            rw [habs_ge _ hxb, habs_lt _ hjx]
            linarith
          · have hjx : x ≤ a.getD j 0 := hge j hj2 hj
            have hj1 : a.getD (bisectLeft a x) 0 ≤ a.getD j 0 := hsort j hj _ hj2
            rw [habs_ge _ hxb, habs_ge _ hjx]
            linarith
        · intro hx
          exact absurd hx (not_le.mpr (hlt 0 hb0))
        · intro hlast
          exact absurd (hge (a.length - 1) (by omega) (by omega)) (not_le.mpr hlast)
        · intro i hi1 hi2 hi3 hi4
          have h1 : i < bisectLeft a x := by
            by_contra hc
            push_neg at hc
            exact absurd (hge i hc (by omega)) (not_le.mpr hi2)
          have h2 : ¬ (i + 1 < bisectLeft a x) := fun hc =>
            absurd (hlt (i + 1) hc) (lt_asymm hi3)
          omega
    · have hb0' : bisectLeft a x = 0 := by omega
      have hr : nearestIdx a x = 0 := by
        rw [nearestIdx, if_neg (by omega), if_neg hb0, hb0']
      rw [hr]
      refine ⟨by omega, ?_, fun _ => rfl, ?_, ?_⟩
      · intro j hj
        have hx0 : x ≤ a.getD 0 0 := hge 0 (by omega) (by omega)
        have hxj : x ≤ a.getD j 0 := hge j (by omega) hj
        have hle' : a.getD 0 0 ≤ a.getD j 0 := hsort j hj 0 (by omega)
        rw [habs_ge _ hx0, habs_ge _ hxj]
        linarith
      · intro hlast
        exact absurd (hge (a.length - 1) (by omega) (by omega)) (not_le.mpr hlast)
      · intro i hi1 hi2 hi3 hi4
        exact absurd (hge i (by omega) (by omega)) (not_le.mpr hi2)

/-! ## Cursor query claims -/

/-- C9: the cursor query on an empty stitched view yields `NoData`,
`NoData` is the only error a query can surface, and on any non-empty
view the query succeeds with a sample of the view. -/
theorem C9_noData_only (view : List Sample) (t : ℚ) :
    (nearestQuery view t = Except.error QueryError.noData ↔ view = []) ∧
    (∀ e, nearestQuery view t = Except.error e → e = QueryError.noData) ∧
    (view ≠ [] → ∃ s, nearestQuery view t = Except.ok s ∧ s ∈ view) := by
  refine ⟨⟨?_, ?_⟩, ?_, ?_⟩
  · intro h
    by_contra hne
    rw [nearestQuery, if_neg (by simpa using hne)] at h
    exact absurd h (by simp)
  · intro h
    rw [nearestQuery, if_pos (by simp [h])]
  · intro e h
    cases e
    rfl
  · intro hne
    rw [nearestQuery, if_neg (by simpa using hne)]
    refine ⟨view.getD (nearestIdx (view.map Sample.ts) t) ⟨0, 0⟩, rfl, ?_⟩
    have hlt : nearestIdx (view.map Sample.ts) t < view.length := by
      have h := nearestIdx_lt_length (view.map Sample.ts) t (by simpa using hne)
      simpa using h
    rw [List.getD_eq_getElem?_getD, List.getElem?_eq_getElem hlt]
    simp only [Option.getD_some]
    exact List.getElem_mem hlt

/-- C2 counterexample: with samples at timestamps 0 and 2 and a target
of 1 — exactly equidistant — the query returns the sample at timestamp
2, the later of the two, not the earlier one the claim states. -/
theorem C2_counterexample :
    nearestQuery [⟨0, 5⟩, ⟨2, 7⟩] 1 = Except.ok ⟨2, 7⟩ ∧
    (1 : ℚ) - 0 = 2 - 1 ∧
    Sample.mk 2 7 ≠ Sample.mk 0 5 := by
  refine ⟨?_, by norm_num, by simp⟩
  have hidx : nearestIdx ([⟨0, 5⟩, ⟨2, 7⟩].map Sample.ts) 1 = 1 := by
    norm_num [nearestIdx, bisectLeft, bisectLeftGo, ratAbs]
  rw [nearestQuery, if_neg (by simp), hidx]
  rfl

/-- C2 amended: on a non-empty time-sorted stitched view the query
returns the sample whose timestamp is closest to the target; a target at
or before the first timestamp clamps to the first sample and one past
the last timestamp clamps to the last; on an exact midpoint between two
adjacent samples it returns the later of the two (not the earlier). -/
theorem C2_nearest_query (view : List Sample) (t : ℚ)
    (hsort : sortedLE (view.map Sample.ts)) (hne : view ≠ []) :
    nearestQuery view t =
      Except.ok (view.getD (nearestIdx (view.map Sample.ts) t) ⟨0, 0⟩) ∧
    nearestIdx (view.map Sample.ts) t < view.length ∧
    (∀ j, j < view.length →
      |(view.map Sample.ts).getD (nearestIdx (view.map Sample.ts) t) 0 - t| ≤
        |(view.map Sample.ts).getD j 0 - t|) ∧
    (t ≤ (view.map Sample.ts).getD 0 0 → nearestIdx (view.map Sample.ts) t = 0) ∧
    ((view.map Sample.ts).getD (view.length - 1) 0 < t →
      nearestIdx (view.map Sample.ts) t = view.length - 1) ∧
    (∀ i, i + 1 < view.length → (view.map Sample.ts).getD i 0 < t →
      t < (view.map Sample.ts).getD (i + 1) 0 →
      t - (view.map Sample.ts).getD i 0 = (view.map Sample.ts).getD (i + 1) 0 - t →
      nearestIdx (view.map Sample.ts) t = i + 1) := by
  have hmapne : view.map Sample.ts ≠ [] := by simpa using hne
  have hmaplen : (view.map Sample.ts).length = view.length := List.length_map _ _
  obtain ⟨h1, h2, h3, h4, h5⟩ := nearestIdx_spec (view.map Sample.ts) t hsort hmapne
  refine ⟨?_, by omega, ?_, h3, ?_, ?_⟩
  · rw [nearestQuery, if_neg (by simpa using hne)]
  · intro j hj
    exact h2 j (by omega)
  · rw [hmaplen] at h4
    exact h4
  · intro i hi
    exact h5 i (by omega)

/-- Witness for the amended C2 theorem at a concrete sorted view. -/
theorem C2_nearest_query_witness :
    nearestQuery [⟨0, 2⟩, ⟨4, 3⟩] 1 = Except.ok ⟨0, 2⟩ := by
  have h := C2_nearest_query [⟨0, 2⟩, ⟨4, 3⟩] 1 (by decide) (by decide)
  have hidx : nearestIdx ([(⟨0, 2⟩ : Sample), ⟨4, 3⟩].map Sample.ts) 1 = 0 := by
    norm_num [nearestIdx, bisectLeft, bisectLeftGo, ratAbs]
  rw [h.1, hidx]
  rfl
